import Mathlib

/-!
Verification of the session engine of `helios-dac-rs` (`src/stream.rs`).

The data model (`Dac`, `Addressed`, `QueuedCommand`, `Stream`, `CommandQueue`) is
embedded from `src/stream.rs`.  The transport, the protocol-encoding collaborator
(`crate::Point`, `crate::DeviceStatus`, `protocol::command::*`), the free functions
`send_command` / `recv_response` and the `CommandQueue` batch operations are not part
of `src/stream.rs`; where a definition is reconstructed from the design document its
doc comment starts with `Modelled from the spec:` and names the missing item.

Machine integers (`u32`, `usize`, `u8`) are modelled as `Nat`: no arithmetic in the
verified fragment can overflow a 32-bit counter for the inputs considered, and the
claims under study are independent of wrap-around behaviour.
-/

namespace HeliosDac

/-- Modelled from the spec: `crate::DeviceStatus` is not under `src/`; §4.3 of the
design document names the four states of the device status state machine. -/
inductive DeviceStatus where
  | Idle
  | Preparing
  | Playing
  | EmergencyStopped
deriving DecidableEq

/-- Modelled from the spec: `crate::Point` is not under `src/`.  The session logic
only moves points around and counts them, so a point is abstracted to a coordinate
pair. -/
structure Point where
  x : Int
  y : Int
deriving DecidableEq

/-- Modelled from the spec: `protocol::command::Begin` is not under `src/`; §6 leaves
the wire layout to the protocol collaborator, so its parameters are abstracted. -/
structure BeginParams where
  low_water_mark : Nat
  point_rate : Nat
deriving DecidableEq

/-- Modelled from the spec: `protocol::command::PointRate` is not under `src/`. -/
structure PointRateParams where
  rate : Nat
deriving DecidableEq

/-- A runtime representation of any of the possible commands
(`QueuedCommand`, src/stream.rs lines 17-28).  `Data` carries an
`ops::Range<usize>` into the session's point buffer, modelled as a pair
(start, stop) of indices. -/
inductive QueuedCommand where
  | PrepareStream
  | Begin (b : BeginParams)
  | PointRate (r : PointRateParams)
  | Data (range : Nat × Nat)
  | Stop
  | EmergencyStop
  | ClearEmergencyStop
  | Ping
deriving DecidableEq

/-- A simple abstraction around a single Helios DAC (`Dac`, src/stream.rs
lines 85-95). -/
structure Dac where
  sw_revision : Nat
  buffer_capacity : Nat
  max_point_rate : Nat
  status : DeviceStatus
deriving DecidableEq

/-- A DAC along with its ID (`Addressed`, src/stream.rs lines 73-79). -/
structure Addressed where
  id : Nat
  dac : Dac
deriving DecidableEq

/-- A bi-directional communication stream between the user and a `Dac`
(`Stream`, src/stream.rs lines 6-15).  The TCP connection itself is external
(§6 of the design document); it is threaded separately as a `Transport`. -/
structure Stream where
  dac : Addressed
  command_buffer : List QueuedCommand
  point_buffer : List Point
  bytes : List Nat
deriving DecidableEq

/-- A queue of commands that are to be submitted at once before listening for
their responses (`CommandQueue`, src/stream.rs lines 65-67).  In Rust it holds
`&'a mut Stream`; in this embedding the borrowed stream state is carried by
value. -/
structure CommandQueue where
  stream : Stream
deriving DecidableEq

/-- Modelled from the spec: §6 — each command variant has an associated one-byte
command code echoed by its response; the concrete values are owned by the protocol
module (not under `src/`), so representative distinct bytes are used. -/
def QueuedCommand.code : QueuedCommand → Nat
  | .PrepareStream => 0x70
  | .Begin _ => 0x62
  | .PointRate _ => 0x71
  | .Data _ => 0x64
  | .Stop => 0x73
  | .EmergencyStop => 0x00
  | .ClearEmergencyStop => 0x63
  | .Ping => 0x3F

/-- Modelled from the spec: §6 — the byte-level layout of a command is owned by the
protocol-encoding collaborator (explicitly out of scope, §1).  Only the fact that the
byte buffer receives the encoding matters to the session engine, so the encoding is
abstracted to the command code byte. -/
def encodeCommand (c : QueuedCommand) : List Nat :=
  [c.code]

/-- Modelled from the spec: §6 — a response carries the originating command code and
the device's current capability/status fields. -/
structure DacResponse where
  command : Nat
  sw_revision : Nat
  buffer_capacity : Nat
  max_point_rate : Nat
  status : DeviceStatus
deriving DecidableEq

/-- Modelled from the spec: §7 — a received response either parses fully or is
truncated/malformed; the byte layout itself is out of scope, so an incoming message
is either a well-formed response or a malformed frame. -/
inductive RawResponse where
  | malformed
  | ok (r : DacResponse)
deriving DecidableEq

/-- Modelled from the spec: §6 — the transport is a reliable ordered bidirectional
stream supplied externally.  `writeOutcomes` schedules the outcome of each successive
write (an exhausted schedule means success), modelling §7's transport errors;
`written` logs, in order, the command each successfully written frame encodes;
`incoming` holds the responses waiting to be read. -/
structure Transport where
  writeOutcomes : List Bool
  written : List QueuedCommand
  incoming : List RawResponse
deriving DecidableEq

/-- Modelled from the spec: §7 — the error taxonomy for a response that was received
but failed validation, or a transport closed mid-read. -/
inductive CommunicationError where
  | closedMidRead
  | malformedResponse
  | unexpectedCommand (expected found : Nat)
deriving DecidableEq

/-- Modelled from the spec: the free function `send_command(bytes, command)` called at
src/stream.rs line 39 is not under `src/`.  Per §4.1 it encodes one command into the
reusable byte buffer and writes the buffer to the transport, failing with a
transport-I/O error if the write does not complete.  Returns the new byte buffer, the
new transport state, and whether the write succeeded. -/
def sendCommandRaw (_bytes : List Nat) (t : Transport) (c : QueuedCommand) :
    List Nat × Transport × Bool :=
  let encoded := encodeCommand c
  match t.writeOutcomes with
  | [] => (encoded, { t with written := t.written ++ [c] }, true)
  | o :: rest =>
      if o then
        (encoded, { t with writeOutcomes := rest, written := t.written ++ [c] }, true)
      else
        (encoded, { t with writeOutcomes := rest }, false)

/-- Modelled from the spec: the free function `recv_response(bytes, dac, expected)`
called at src/stream.rs line 48 is not under `src/`.  Per §4.1 it reads one response,
parses it, and checks its command tag against the expected code; on match it replaces
the `Dac` snapshot wholesale from the response payload, otherwise it fails with a
communication error and leaves the snapshot untouched. -/
def recvResponseRaw (bytes : List Nat) (dac : Addressed) (t : Transport)
    (expected : Nat) :
    List Nat × Addressed × Transport × Option CommunicationError :=
  match t.incoming with
  | [] => (bytes, dac, t, some .closedMidRead)
  | .malformed :: rest =>
      (bytes, dac, { t with incoming := rest }, some .malformedResponse)
  | .ok r :: rest =>
      if r.command = expected then
        ([r.command], { dac with dac :=
            { sw_revision := r.sw_revision
              buffer_capacity := r.buffer_capacity
              max_point_rate := r.max_point_rate
              status := r.status } },
          { t with incoming := rest }, none)
      else
        (bytes, dac, { t with incoming := rest },
          some (.unexpectedCommand expected r.command))

/-- `Stream::send_command` (src/stream.rs lines 31-40): destructures only the byte
buffer out of the stream and delegates to the free function. -/
def Stream.send_command (s : Stream) (t : Transport) (c : QueuedCommand) :
    Stream × Transport × Bool :=
  let r := sendCommandRaw s.bytes t c
  ({ s with bytes := r.1 }, r.2.1, r.2.2)

/-- `Stream::recv_response` (src/stream.rs lines 42-49): destructures only the byte
buffer and the `Dac` snapshot out of the stream and delegates to the free function. -/
def Stream.recv_response (s : Stream) (t : Transport) (expected : Nat) :
    Stream × Transport × Option CommunicationError :=
  let r := recvResponseRaw s.bytes s.dac t expected
  ({ s with bytes := r.1, dac := r.2.1 }, r.2.2.1, r.2.2.2)

/-- `Stream::queue_commands` (src/stream.rs lines 57-61): clears the command buffer
and the point buffer, then returns a `CommandQueue` borrowing the stream. -/
def Stream.queue_commands (s : Stream) : CommandQueue :=
  CommandQueue.mk { s with command_buffer := [], point_buffer := [] }

/-- `CommandQueue` has no `Drop` implementation in src/stream.rs and holds only a
mutable borrow of the `Stream` (line 66), so letting it go out of scope runs no code:
the stream becomes accessible again exactly as the queue last held it. -/
def CommandQueue.abandon (q : CommandQueue) : Stream :=
  q.stream

/-- Modelled from the spec: §7 — a `Data` push that would exceed the device's
remaining point-buffer capacity for the batch being built is rejected at push time. -/
structure CapacityError where
  capacity : Nat
  queued : Nat
  requested : Nat
deriving DecidableEq

/-- Modelled from the spec: `CommandQueue::data(points)` is not under `src/`.  Per
§4.2 it appends the given points to the session's point buffer and records the
resulting index range as a `Data` command's payload reference; a push whose point
count would make the batch's cumulative queued points exceed the device's buffer
capacity fails immediately with a capacity error and does not mutate any buffer. -/
def CommandQueue.data (q : CommandQueue) (points : List Point) :
    CommandQueue × Option CapacityError :=
  let s := q.stream
  let queued := s.point_buffer.length
  if s.dac.dac.buffer_capacity < queued + points.length then
    (q, some ⟨s.dac.dac.buffer_capacity, queued, points.length⟩)
  else
    (CommandQueue.mk { s with
        command_buffer :=
          s.command_buffer ++ [QueuedCommand.Data (queued, queued + points.length)],
        point_buffer := s.point_buffer ++ points },
      none)

/-- Modelled from the spec: §4.2 / §8 — the error returned by an aborted batch
identifies the command at which the failure occurred, either a transport-I/O failure
while sending or a communication failure while validating a response. -/
inductive SubmitError where
  | sendFailed (index : Nat)
  | recvFailed (index : Nat) (e : CommunicationError)
deriving DecidableEq

/-- Modelled from the spec: the write-ahead phase of `CommandQueue::submit` — sends
each queued command in order via `Stream::send_command`, stopping at the first
transport failure and reporting its index (counted from `i`). -/
def sendAll (s : Stream) (t : Transport) (cs : List QueuedCommand) (i : Nat) :
    Stream × Transport × Option Nat :=
  match cs with
  | [] => (s, t, none)
  | c :: rest =>
      let r := s.send_command t c
      if r.2.2 then sendAll r.1 r.2.1 rest (i + 1)
      else (r.1, r.2.1, some i)

/-- Modelled from the spec: the read-back phase of `CommandQueue::submit` — reads one
response per queued command in order via `Stream::recv_response`, validating each
against its originating command's code, stopping at the first communication failure
and reporting its index (counted from `i`). -/
def recvAll (s : Stream) (t : Transport) (cs : List QueuedCommand) (i : Nat) :
    Stream × Transport × Option (Nat × CommunicationError) :=
  match cs with
  | [] => (s, t, none)
  | c :: rest =>
      let r := s.recv_response t c.code
      match r.2.2 with
      | none => recvAll r.1 r.2.1 rest (i + 1)
      | some e => (r.1, r.2.1, some (i, e))

/-- Modelled from the spec: `CommandQueue::submit` is not under `src/`.  Per §4.2 it
transmits all queued commands in the order pushed (write-ahead, pipelined), then reads
exactly one response per command in the same order, validating each against its
originating command's expected tag; on the first failure the batch aborts and the
error is returned. -/
def CommandQueue.submit (q : CommandQueue) (t : Transport) :
    Stream × Transport × Option SubmitError :=
  let cs := q.stream.command_buffer
  let sent := sendAll q.stream t cs 0
  match sent.2.2 with
  | some i => (sent.1, sent.2.1, some (.sendFailed i))
  | none =>
      let rcvd := recvAll sent.1 sent.2.1 cs 0
      match rcvd.2.2 with
      | some ie => (rcvd.1, rcvd.2.1, some (.recvFailed ie.1 ie.2))
      | none => (rcvd.1, rcvd.2.1, none)

/-- Modelled from the spec: the read-through accessor for `sw_revision` provided by
the `Deref<Target = Dac>` impl named in the doc comment at src/stream.rs lines 69-72;
the impl itself is not under `src/` (§9: read-through field access). -/
def Addressed.sw_revision (a : Addressed) : Nat :=
  a.dac.sw_revision

/-- Modelled from the spec: read-through accessor for `buffer_capacity` (see
`Addressed.sw_revision`). -/
def Addressed.buffer_capacity (a : Addressed) : Nat :=
  a.dac.buffer_capacity

/-- Modelled from the spec: read-through accessor for `max_point_rate` (see
`Addressed.sw_revision`). -/
def Addressed.max_point_rate (a : Addressed) : Nat :=
  a.dac.max_point_rate

/-- Modelled from the spec: read-through accessor for `status` (see
`Addressed.sw_revision`). -/
def Addressed.status (a : Addressed) : DeviceStatus :=
  a.dac.status

/-- The discriminant a derived `Hash` feeds for a fieldless enum variant
(`DeviceStatus` is a plain enum, see §4.3). -/
def DeviceStatus.discriminant : DeviceStatus → Nat
  | .Idle => 0
  | .Preparing => 1
  | .Playing => 2
  | .EmergencyStopped => 3

/-- The derived `Hash` on `Dac` (src/stream.rs line 85) feeds every field to the
hasher in declaration order; the standard library's mixing function is out of scope,
so a polynomial accumulator stands in for it.  Hash/equality consistency is
independent of the choice of mixing function. -/
def Dac.hashOf (d : Dac) : Nat :=
  ((d.sw_revision * 1000003 + d.buffer_capacity) * 1000003 + d.max_point_rate)
      * 1000003
    + d.status.discriminant

/-- The derived `Hash` on `Addressed` (src/stream.rs line 73) feeds the identifier and
then the embedded snapshot. -/
def Addressed.hashOf (a : Addressed) : Nat :=
  a.id * 1000003 + a.dac.hashOf

/-- The derived `PartialEq` on `Dac` (src/stream.rs line 85): fieldwise equality. -/
def Dac.beq (a b : Dac) : Bool :=
  a.sw_revision == b.sw_revision && a.buffer_capacity == b.buffer_capacity &&
    a.max_point_rate == b.max_point_rate && a.status == b.status

/-- The derived `PartialEq` on `Addressed` (src/stream.rs line 73): compares the
identifier and the embedded snapshot. -/
def Addressed.beq (a b : Addressed) : Bool :=
  a.id == b.id && Dac.beq a.dac b.dac

/-! Concrete sample data used by the witness theorems. -/

def samplePoint : Point :=
  ⟨1, 2⟩

def sampleDac : Dac :=
  ⟨2, 100, 30000, .Idle⟩

def sampleAddr : Addressed :=
  ⟨7, sampleDac⟩

def sampleStream : Stream :=
  ⟨sampleAddr, [], [], []⟩

def sampleResp : DacResponse :=
  ⟨0x3F, 2, 100, 30000, .Idle⟩

/-- A transport holding one well-formed `Ping` response. -/
def pingTransport : Transport :=
  ⟨[], [], [.ok sampleResp]⟩

/-- A batch of 80 points already queued against a capacity-100 device (§8's
capacity example). -/
def fullQueue : CommandQueue :=
  ⟨⟨sampleAddr, [], List.replicate 80 samplePoint, []⟩⟩

/-- A two-command batch (`Ping`, then `Stop`). -/
def batchQueue : CommandQueue :=
  ⟨⟨sampleAddr, [.Ping, .Stop], [], []⟩⟩

/-- A transport whose incoming queue answers `batchQueue` in order. -/
def okTransport : Transport :=
  ⟨[], [], [.ok ⟨0x3F, 2, 100, 30000, .Idle⟩, .ok ⟨0x73, 2, 100, 30000, .Idle⟩]⟩

/-- A four-command batch (§8's partial-failure example). -/
def failQueue : CommandQueue :=
  ⟨⟨sampleAddr, [.Ping, .Ping, .Ping, .Ping], [], []⟩⟩

/-- A transport whose second write fails. -/
def failTransport : Transport :=
  ⟨[true, false], [], []⟩

/-! Helper lemmas about the two transport primitives.  These are shared
infrastructure; the per-claim theorems below are stated independently of each
other. -/

theorem send_command_stream_frame (s : Stream) (t : Transport) (c : QueuedCommand) :
    (s.send_command t c).1.dac = s.dac ∧
    (s.send_command t c).1.command_buffer = s.command_buffer ∧
    (s.send_command t c).1.point_buffer = s.point_buffer :=
  ⟨rfl, rfl, rfl⟩

theorem send_command_incoming (s : Stream) (t : Transport) (c : QueuedCommand) :
    (s.send_command t c).2.1.incoming = t.incoming := by
  obtain ⟨wo, wr, inc⟩ := t
  rcases wo with _ | ⟨o, rest⟩
  · rfl
  · rcases o <;> rfl

theorem send_command_written_true (s : Stream) (t : Transport) (c : QueuedCommand)
    (h : (s.send_command t c).2.2 = true) :
    (s.send_command t c).2.1.written = t.written ++ [c] := by
  obtain ⟨wo, wr, inc⟩ := t
  rcases wo with _ | ⟨o, rest⟩
  · rfl
  · rcases o
    · exact absurd h (by simp [Stream.send_command, sendCommandRaw])
    · rfl

theorem send_command_written_false (s : Stream) (t : Transport) (c : QueuedCommand)
    (h : (s.send_command t c).2.2 = false) :
    (s.send_command t c).2.1.written = t.written := by
  obtain ⟨wo, wr, inc⟩ := t
  rcases wo with _ | ⟨o, rest⟩
  · exact absurd h (by simp [Stream.send_command, sendCommandRaw])
  · rcases o
    · rfl
    · exact absurd h (by simp [Stream.send_command, sendCommandRaw])

theorem recv_response_stream_frame (s : Stream) (t : Transport) (e : Nat) :
    (s.recv_response t e).1.command_buffer = s.command_buffer ∧
    (s.recv_response t e).1.point_buffer = s.point_buffer :=
  ⟨rfl, rfl⟩

theorem recv_response_transport_frame (s : Stream) (t : Transport) (e : Nat) :
    (s.recv_response t e).2.1.written = t.written ∧
    (s.recv_response t e).2.1.writeOutcomes = t.writeOutcomes := by
  obtain ⟨wo, wr, inc⟩ := t
  rcases inc with _ | ⟨m, rest⟩
  · exact ⟨rfl, rfl⟩
  · rcases m with _ | r
    · exact ⟨rfl, rfl⟩
    · by_cases h : r.command = e <;> simp [Stream.recv_response, recvResponseRaw, h]

theorem recv_response_consumes (s : Stream) (t : Transport) (e : Nat) :
    ∃ ms, t.incoming = ms ++ (s.recv_response t e).2.1.incoming ∧ ms.length ≤ 1 := by
  obtain ⟨wo, wr, inc⟩ := t
  rcases inc with _ | ⟨m, rest⟩
  · exact ⟨[], rfl, by simp⟩
  · rcases m with _ | r
    · exact ⟨[.malformed], rfl, by simp⟩
    · by_cases h : r.command = e <;>
        exact ⟨[.ok r], by simp [Stream.recv_response, recvResponseRaw, h], by simp⟩

theorem recv_response_none_inv (s : Stream) (t : Transport) (e : Nat)
    (h : (s.recv_response t e).2.2 = none) :
    ∃ r tail, t.incoming = RawResponse.ok r :: tail ∧ r.command = e ∧
      (s.recv_response t e).2.1.incoming = tail ∧
      (s.recv_response t e).1.dac.id = s.dac.id ∧
      (s.recv_response t e).1.dac.dac =
        Dac.mk r.sw_revision r.buffer_capacity r.max_point_rate r.status := by
  obtain ⟨wo, wr, inc⟩ := t
  rcases inc with _ | ⟨m, rest⟩
  · exact absurd h (by simp [Stream.recv_response, recvResponseRaw])
  · rcases m with _ | r
    · exact absurd h (by simp [Stream.recv_response, recvResponseRaw])
    · by_cases hc : r.command = e
      · exact ⟨r, rest, rfl, hc,
          by simp [Stream.recv_response, recvResponseRaw, hc]⟩
      · exact absurd h (by simp [Stream.recv_response, recvResponseRaw, hc])

theorem sendAll_frame (cs : List QueuedCommand) :
    ∀ (s : Stream) (t : Transport) (i : Nat),
      (sendAll s t cs i).1.command_buffer = s.command_buffer ∧
      (sendAll s t cs i).1.point_buffer = s.point_buffer ∧
      (sendAll s t cs i).1.dac = s.dac ∧
      (sendAll s t cs i).2.1.incoming = t.incoming := by
  induction cs with
  | nil => exact fun s t i => ⟨rfl, rfl, rfl, rfl⟩
  | cons c rest ih =>
    intro s t i
    simp only [sendAll]
    by_cases hw : (s.send_command t c).2.2 = true
    · rw [if_pos hw]
      obtain ⟨h1, h2, h3, h4⟩ := ih (s.send_command t c).1 (s.send_command t c).2.1 (i + 1)
      exact ⟨h1.trans rfl, h2.trans rfl, h3.trans rfl,
        h4.trans (send_command_incoming s t c)⟩
    · rw [if_neg hw]
      exact ⟨rfl, rfl, rfl, send_command_incoming s t c⟩

theorem sendAll_none_written (cs : List QueuedCommand) :
    ∀ (s : Stream) (t : Transport) (i : Nat),
      (sendAll s t cs i).2.2 = none →
      (sendAll s t cs i).2.1.written = t.written ++ cs := by
  induction cs with
  | nil => intro s t i _; simp [sendAll]
  | cons c rest ih =>
    intro s t i h
    simp only [sendAll] at h ⊢
    by_cases hw : (s.send_command t c).2.2 = true
    · rw [if_pos hw] at h ⊢
      have hr := ih (s.send_command t c).1 (s.send_command t c).2.1 (i + 1) h
      rw [hr, send_command_written_true s t c hw]
      simp
    · rw [if_neg hw] at h
      simp at h

theorem sendAll_some_inv (cs : List QueuedCommand) :
    ∀ (s : Stream) (t : Transport) (i j : Nat),
      (sendAll s t cs i).2.2 = some j →
      ∃ k, j = i + k ∧ k < cs.length ∧
        (sendAll s t cs i).2.1.written = t.written ++ cs.take k := by
  induction cs with
  | nil => intro s t i j h; simp [sendAll] at h
  | cons c rest ih =>
    intro s t i j h
    simp only [sendAll] at h ⊢
    by_cases hw : (s.send_command t c).2.2 = true
    · rw [if_pos hw] at h ⊢
      obtain ⟨k, hk, hlt, hwr⟩ :=
        ih (s.send_command t c).1 (s.send_command t c).2.1 (i + 1) j h
      refine ⟨k + 1, by omega, by simpa using Nat.succ_lt_succ hlt, ?_⟩
      rw [hwr, send_command_written_true s t c hw, List.take_succ_cons]
      simp
    · rw [if_neg hw] at h ⊢
      have hw' : (s.send_command t c).2.2 = false := by simpa using hw
      have hj : j = i := by simpa using h.symm
      refine ⟨0, by omega, by simp, ?_⟩
      simpa using send_command_written_false s t c hw'

theorem recvAll_frame (cs : List QueuedCommand) :
    ∀ (s : Stream) (t : Transport) (i : Nat),
      (recvAll s t cs i).1.command_buffer = s.command_buffer ∧
      (recvAll s t cs i).1.point_buffer = s.point_buffer ∧
      (recvAll s t cs i).2.1.written = t.written ∧
      (recvAll s t cs i).2.1.writeOutcomes = t.writeOutcomes := by
  induction cs with
  | nil => exact fun s t i => ⟨rfl, rfl, rfl, rfl⟩
  | cons c rest ih =>
    intro s t i
    simp only [recvAll]
    have hf := recv_response_transport_frame s t c.code
    rcases hres : (s.recv_response t c.code).2.2 with _ | e <;> simp only [hres]
    · obtain ⟨h1, h2, h3, h4⟩ :=
        ih (s.recv_response t c.code).1 (s.recv_response t c.code).2.1 (i + 1)
      exact ⟨h1.trans (recv_response_stream_frame s t c.code).1,
        h2.trans (recv_response_stream_frame s t c.code).2,
        h3.trans hf.1, h4.trans hf.2⟩
    · exact ⟨rfl, rfl, hf.1, hf.2⟩

theorem recvAll_none_inv (cs : List QueuedCommand) :
    ∀ (s : Stream) (t : Transport) (i : Nat),
      (recvAll s t cs i).2.2 = none →
      ∃ ms, t.incoming = ms ++ (recvAll s t cs i).2.1.incoming ∧
        ms.length = cs.length ∧
        ∀ j, j < cs.length →
          ∃ r c, ms[j]? = some (RawResponse.ok r) ∧ cs[j]? = some c ∧
            r.command = c.code := by
  induction cs with
  | nil =>
    intro s t i _
    exact ⟨[], by simp [recvAll], rfl, fun j hj => absurd hj (Nat.not_lt_zero j)⟩
  | cons c rest ih =>
    intro s t i h
    simp only [recvAll] at h ⊢
    rcases hres : (s.recv_response t c.code).2.2 with _ | e
    · simp only [hres] at h ⊢
      obtain ⟨ms, hsplit, hlen, hidx⟩ :=
        ih (s.recv_response t c.code).1 (s.recv_response t c.code).2.1 (i + 1) h
      obtain ⟨r, tail, hinc, hcmd, hinc2, -, -⟩ := recv_response_none_inv s t c.code hres
      have htail := hinc2.symm.trans hsplit
      refine ⟨RawResponse.ok r :: ms, ?_, by simp [hlen], ?_⟩
      · rw [hinc, htail]; rfl
      · intro j hj
        cases j with
        | zero => exact ⟨r, c, by simp, by simp, hcmd⟩
        | succ n =>
          obtain ⟨r2, c2, h1, h2, h3⟩ :=
            hidx n (Nat.lt_of_succ_lt_succ (by simpa using hj))
          exact ⟨r2, c2, by simpa using h1, by simpa using h2, h3⟩
    · simp only [hres] at h
      simp at h

theorem recvAll_some_inv (cs : List QueuedCommand) :
    ∀ (s : Stream) (t : Transport) (i j : Nat) (e : CommunicationError),
      (recvAll s t cs i).2.2 = some (j, e) →
      ∃ k, j = i + k ∧ k < cs.length ∧
        ∃ ms, t.incoming = ms ++ (recvAll s t cs i).2.1.incoming ∧
          ms.length ≤ k + 1 := by
  induction cs with
  | nil => intro s t i j e h; simp [recvAll] at h
  | cons c rest ih =>
    intro s t i j e h
    simp only [recvAll] at h ⊢
    rcases hres : (s.recv_response t c.code).2.2 with _ | e0
    · simp only [hres] at h ⊢
      obtain ⟨k, hk, hlt, ms, hsplit, hlen⟩ :=
        ih (s.recv_response t c.code).1 (s.recv_response t c.code).2.1 (i + 1) j e h
      obtain ⟨r, tail, hinc, -, hinc2, -, -⟩ := recv_response_none_inv s t c.code hres
      have htail := hinc2.symm.trans hsplit
      refine ⟨k + 1, by omega, by simpa using Nat.succ_lt_succ hlt,
        RawResponse.ok r :: ms, ?_, by simpa using Nat.succ_le_succ hlen⟩
      rw [hinc, htail]; rfl
    · simp only [hres] at h ⊢
      have hje : i = j ∧ e0 = e := by simpa using h
      obtain ⟨ms, hsplit, hlen⟩ := recv_response_consumes s t c.code
      exact ⟨0, by omega, by simp, ms, hsplit, by omega⟩

/-- Claim C5: for every `Stream`, regardless of its prior buffer contents,
`queue_commands` leaves the command buffer and the point buffer empty while touching
neither the `Dac` snapshot nor the byte buffer, and returns a `CommandQueue` bound to
that stream; it performs no I/O (it does not involve the transport at all). -/
theorem queue_commands_resets_buffers (s : Stream) :
    (s.queue_commands).stream.command_buffer = [] ∧
    (s.queue_commands).stream.point_buffer = [] ∧
    (s.queue_commands).stream.dac = s.dac ∧
    (s.queue_commands).stream.bytes = s.bytes :=
  ⟨rfl, rfl, rfl, rfl⟩

/-- Claim C7: each of the four `Dac` fields can be read directly through an
`Addressed` value by transparent delegation, and the value read equals the
corresponding field of the embedded snapshot. -/
theorem addressed_field_delegation (a : Addressed) :
    a.sw_revision = a.dac.sw_revision ∧
    a.buffer_capacity = a.dac.buffer_capacity ∧
    a.max_point_rate = a.dac.max_point_rate ∧
    a.status = a.dac.status :=
  ⟨rfl, rfl, rfl, rfl⟩

/-- Claim C9: `Stream::send_command` modifies at most the byte buffer — the `Dac`
snapshot, the command buffer and the point buffer are unchanged — and
`Stream::recv_response` modifies at most the byte buffer and the `Dac` snapshot — the
command buffer and the point buffer are unchanged. -/
theorem send_recv_frame_conditions (s : Stream) (t : Transport) (c : QueuedCommand)
    (e : Nat) :
    (s.send_command t c).1.dac = s.dac ∧
    (s.send_command t c).1.command_buffer = s.command_buffer ∧
    (s.send_command t c).1.point_buffer = s.point_buffer ∧
    (s.recv_response t e).1.command_buffer = s.command_buffer ∧
    (s.recv_response t e).1.point_buffer = s.point_buffer :=
  ⟨rfl, rfl, rfl, rfl, rfl⟩

/-- Claim C10: letting a `CommandQueue` go out of scope without submitting runs no
code (there is no `Drop` impl and the queue holds only a borrow), so every field of
the stream is exactly as the queue last held it, and any leftover queued content is
discarded only by the next `queue_commands` call. -/
theorem abandoned_queue_preserves_stream (q : CommandQueue) :
    q.abandon.dac = q.stream.dac ∧
    q.abandon.command_buffer = q.stream.command_buffer ∧
    q.abandon.point_buffer = q.stream.point_buffer ∧
    q.abandon.bytes = q.stream.bytes ∧
    (q.abandon.queue_commands).stream.command_buffer = [] ∧
    (q.abandon.queue_commands).stream.point_buffer = [] :=
  ⟨rfl, rfl, rfl, rfl, rfl, rfl⟩

/-- Claim C6: two `Addressed` values compare equal exactly when their identifiers are
equal and every field of their embedded `Dac` snapshots is equal, and equal values
hash to the same value. -/
theorem addressed_eq_iff_fields_and_hash (a b : Addressed) :
    (Addressed.beq a b = true ↔
      (a.id = b.id ∧ a.dac.sw_revision = b.dac.sw_revision ∧
        a.dac.buffer_capacity = b.dac.buffer_capacity ∧
        a.dac.max_point_rate = b.dac.max_point_rate ∧
        a.dac.status = b.dac.status)) ∧
    (Addressed.beq a b = true → Addressed.hashOf a = Addressed.hashOf b) := by
  obtain ⟨ia, ra, ca, ma, sa⟩ := a
  obtain ⟨ib, rb, cb, mb, sb⟩ := b
  constructor
  · simp [Addressed.beq, Dac.beq, Bool.and_eq_true, beq_iff_eq, and_assoc]
  · intro h
    simp only [Addressed.beq, Dac.beq, Bool.and_eq_true, beq_iff_eq] at h
    obtain ⟨h1, ⟨⟨h2, h3⟩, h4⟩, h5⟩ := h
    simp [Addressed.hashOf, Dac.hashOf, h1, h2, h3, h4, h5]

/-- Witness for C6: two structurally equal sample devices compare equal and hash
equal. -/
theorem addressed_eq_iff_fields_and_hash_witness :
    Addressed.beq sampleAddr sampleAddr = true ∧
    Addressed.hashOf sampleAddr = Addressed.hashOf sampleAddr :=
  ⟨by decide, (addressed_eq_iff_fields_and_hash sampleAddr sampleAddr).2 (by decide)⟩

/-- Claim C4: `recv_response` updates the session's `Dac` snapshot only when the
received response's command tag equals the expected code and the response parses
fully; on a closed transport, a malformed response, or a tag mismatch it returns the
corresponding communication error and leaves the snapshot unchanged. -/
theorem recv_response_snapshot_guard (s : Stream) (t : Transport) (expected : Nat) :
    ((s.recv_response t expected).2.2 = none →
      ∃ r tail, t.incoming = RawResponse.ok r :: tail ∧ r.command = expected ∧
        (s.recv_response t expected).1.dac.id = s.dac.id ∧
        (s.recv_response t expected).1.dac.dac =
          Dac.mk r.sw_revision r.buffer_capacity r.max_point_rate r.status) ∧
    (t.incoming = [] →
      (s.recv_response t expected).2.2 = some CommunicationError.closedMidRead ∧
      (s.recv_response t expected).1.dac = s.dac) ∧
    (∀ tail, t.incoming = RawResponse.malformed :: tail →
      (s.recv_response t expected).2.2 = some CommunicationError.malformedResponse ∧
      (s.recv_response t expected).1.dac = s.dac) ∧
    (∀ r tail, t.incoming = RawResponse.ok r :: tail → ¬r.command = expected →
      (s.recv_response t expected).2.2 =
        some (CommunicationError.unexpectedCommand expected r.command) ∧
      (s.recv_response t expected).1.dac = s.dac) := by
  refine ⟨?_, ?_, ?_, ?_⟩
  · intro h
    obtain ⟨r, tail, h1, h2, h3, h4, h5⟩ := recv_response_none_inv s t expected h
    exact ⟨r, tail, h1, h2, h4, h5⟩
  · obtain ⟨wo, wr, inc⟩ := t
    intro h
    cases h
    exact ⟨rfl, rfl⟩
  · obtain ⟨wo, wr, inc⟩ := t
    intro tail h
    cases h
    exact ⟨rfl, rfl⟩
  · obtain ⟨wo, wr, inc⟩ := t
    intro r tail h hne
    cases h
    simp [Stream.recv_response, recvResponseRaw, hne]

/-- Witness for C4: a fully validated `Ping` response refreshes the snapshot. -/
theorem recv_response_snapshot_guard_witness :
    (sampleStream.recv_response pingTransport 0x3F).2.2 = none ∧
    (∃ r tail, pingTransport.incoming = RawResponse.ok r :: tail ∧
      r.command = 0x3F ∧
      (sampleStream.recv_response pingTransport 0x3F).1.dac.id =
        sampleStream.dac.id ∧
      (sampleStream.recv_response pingTransport 0x3F).1.dac.dac =
        Dac.mk r.sw_revision r.buffer_capacity r.max_point_rate r.status) :=
  ⟨by decide,
    (recv_response_snapshot_guard sampleStream pingTransport 0x3F).1 (by decide)⟩

/-- Claim C2: pushing a `Data` command whose point count would make the batch's
cumulative queued points exceed the device's buffer capacity returns a capacity error
naming the capacity, the queued count and the request, and leaves the queue — in
particular the command buffer and the point buffer — exactly as it was; the push
involves no transport, hence no I/O. -/
theorem data_capacity_guard (q : CommandQueue) (points : List Point)
    (h : q.stream.dac.dac.buffer_capacity <
      q.stream.point_buffer.length + points.length) :
    (q.data points).2 =
      some ⟨q.stream.dac.dac.buffer_capacity, q.stream.point_buffer.length,
        points.length⟩ ∧
    (q.data points).1 = q := by
  simp only [CommandQueue.data]
  rw [if_pos h]
  exact ⟨rfl, rfl⟩

/-- Witness for C2: capacity 100, 80 points queued, pushing 30 more fails without
mutating the queue (§8's example). -/
theorem data_capacity_guard_witness :
    fullQueue.stream.dac.dac.buffer_capacity <
      fullQueue.stream.point_buffer.length +
        (List.replicate 30 samplePoint).length ∧
    ((fullQueue.data (List.replicate 30 samplePoint)).2 =
        some ⟨fullQueue.stream.dac.dac.buffer_capacity,
          fullQueue.stream.point_buffer.length,
          (List.replicate 30 samplePoint).length⟩ ∧
      (fullQueue.data (List.replicate 30 samplePoint)).1 = fullQueue) :=
  ⟨by decide,
    data_capacity_guard fullQueue (List.replicate 30 samplePoint) (by decide)⟩

/-- Claim C1: a successful `submit` writes all N queued commands to the transport in
the exact order they were pushed, then reads exactly N responses in that same order,
and the i-th response's command tag equals the i-th queued command's expected code. -/
theorem submit_lockstep_pipelined (q : CommandQueue) (t : Transport)
    (h : (q.submit t).2.2 = none) :
    (q.submit t).2.1.written = t.written ++ q.stream.command_buffer ∧
    ∃ ms, t.incoming = ms ++ (q.submit t).2.1.incoming ∧
      ms.length = q.stream.command_buffer.length ∧
      ∀ j, j < q.stream.command_buffer.length →
        ∃ r c, ms[j]? = some (RawResponse.ok r) ∧
          q.stream.command_buffer[j]? = some c ∧ r.command = c.code := by
  simp only [CommandQueue.submit] at h ⊢
  rcases hs : (sendAll q.stream t q.stream.command_buffer 0).2.2 with _ | i
  · simp only [hs] at h ⊢
    rcases hr : (recvAll (sendAll q.stream t q.stream.command_buffer 0).1
        (sendAll q.stream t q.stream.command_buffer 0).2.1
        q.stream.command_buffer 0).2.2 with _ | ie
    · simp only [hr] at h ⊢
      have hw := sendAll_none_written q.stream.command_buffer q.stream t 0 hs
      have hrf := recvAll_frame q.stream.command_buffer
        (sendAll q.stream t q.stream.command_buffer 0).1
        (sendAll q.stream t q.stream.command_buffer 0).2.1 0
      have hsf := sendAll_frame q.stream.command_buffer q.stream t 0
      obtain ⟨ms, hsplit, hlen, hidx⟩ := recvAll_none_inv q.stream.command_buffer
        (sendAll q.stream t q.stream.command_buffer 0).1
        (sendAll q.stream t q.stream.command_buffer 0).2.1 0 hr
      exact ⟨hrf.2.2.1.trans hw, ms, hsf.2.2.2.symm.trans hsplit, hlen, hidx⟩
    · simp only [hr] at h
      simp at h
  · simp only [hs] at h
    simp at h

/-- Witness for C1: a `Ping`-then-`Stop` batch against a transport answering both in
order submits successfully with both frames written and both responses consumed. -/
theorem submit_lockstep_pipelined_witness :
    (batchQueue.submit okTransport).2.2 = none ∧
    ((batchQueue.submit okTransport).2.1.written =
        okTransport.written ++ batchQueue.stream.command_buffer ∧
      ∃ ms, okTransport.incoming =
          ms ++ (batchQueue.submit okTransport).2.1.incoming ∧
        ms.length = batchQueue.stream.command_buffer.length ∧
        ∀ j, j < batchQueue.stream.command_buffer.length →
          ∃ r c, ms[j]? = some (RawResponse.ok r) ∧
            batchQueue.stream.command_buffer[j]? = some c ∧ r.command = c.code) :=
  ⟨by decide, submit_lockstep_pipelined batchQueue okTransport (by decide)⟩

/-- Claim C3: a `submit` that fails sends no further commands and reads no further
responses after the failure point and returns an error identifying the command at
which the failure occurred: a send failure at index i leaves only the first i
commands written and the incoming queue untouched, and a response-validation failure
at index i leaves all commands written (write-ahead) with at most i + 1 responses
consumed. -/
theorem submit_aborts_on_first_failure (q : CommandQueue) (t : Transport)
    (err : SubmitError) (h : (q.submit t).2.2 = some err) :
    (∃ i, err = SubmitError.sendFailed i ∧ i < q.stream.command_buffer.length ∧
      (q.submit t).2.1.written = t.written ++ q.stream.command_buffer.take i ∧
      (q.submit t).2.1.incoming = t.incoming) ∨
    ∃ i e, err = SubmitError.recvFailed i e ∧
      i < q.stream.command_buffer.length ∧
      (q.submit t).2.1.written = t.written ++ q.stream.command_buffer ∧
      ∃ ms, t.incoming = ms ++ (q.submit t).2.1.incoming ∧ ms.length ≤ i + 1 := by
  simp only [CommandQueue.submit] at h ⊢
  rcases hs : (sendAll q.stream t q.stream.command_buffer 0).2.2 with _ | i
  · simp only [hs] at h ⊢
    rcases hr : (recvAll (sendAll q.stream t q.stream.command_buffer 0).1
        (sendAll q.stream t q.stream.command_buffer 0).2.1
        q.stream.command_buffer 0).2.2 with _ | ⟨i0, e0⟩
    · simp only [hr] at h
      simp at h
    · simp only [hr] at h ⊢
      right
      have herr : err = SubmitError.recvFailed i0 e0 := by
        simp at h
        exact h.symm
      obtain ⟨k, hk, hlt, ms, hsplit, hlen⟩ := recvAll_some_inv
        q.stream.command_buffer
        (sendAll q.stream t q.stream.command_buffer 0).1
        (sendAll q.stream t q.stream.command_buffer 0).2.1 0 i0 e0 hr
      have hsf := sendAll_frame q.stream.command_buffer q.stream t 0
      have hrf := recvAll_frame q.stream.command_buffer
        (sendAll q.stream t q.stream.command_buffer 0).1
        (sendAll q.stream t q.stream.command_buffer 0).2.1 0
      exact ⟨i0, e0, herr, by omega,
        hrf.2.2.1.trans (sendAll_none_written q.stream.command_buffer q.stream t 0 hs),
        ms, hsf.2.2.2.symm.trans hsplit, by omega⟩
  · simp only [hs] at h ⊢
    left
    have herr : err = SubmitError.sendFailed i := by
      simp at h
      exact h.symm
    obtain ⟨k, hk, hlt, hwr⟩ := sendAll_some_inv q.stream.command_buffer q.stream t 0 i hs
    have hsf := sendAll_frame q.stream.command_buffer q.stream t 0
    have hik : i = k := by omega
    refine ⟨i, herr, by omega, ?_, hsf.2.2.2⟩
    rw [hik]
    exact hwr

/-- Witness for C3: a four-`Ping` batch whose second write fails aborts with
`sendFailed 1`, only the first command written and nothing read (§8's example). -/
theorem submit_aborts_on_first_failure_witness :
    (failQueue.submit failTransport).2.2 = some (SubmitError.sendFailed 1) ∧
    ((∃ i, SubmitError.sendFailed 1 = SubmitError.sendFailed i ∧
        i < failQueue.stream.command_buffer.length ∧
        (failQueue.submit failTransport).2.1.written =
          failTransport.written ++ failQueue.stream.command_buffer.take i ∧
        (failQueue.submit failTransport).2.1.incoming = failTransport.incoming) ∨
      ∃ i e, SubmitError.sendFailed 1 = SubmitError.recvFailed i e ∧
        i < failQueue.stream.command_buffer.length ∧
        (failQueue.submit failTransport).2.1.written =
          failTransport.written ++ failQueue.stream.command_buffer ∧
        ∃ ms, failTransport.incoming =
            ms ++ (failQueue.submit failTransport).2.1.incoming ∧
          ms.length ≤ i + 1) :=
  ⟨by decide,
    submit_aborts_on_first_failure failQueue failTransport
      (SubmitError.sendFailed 1) (by decide)⟩

end HeliosDac
